import Mathlib

/-!
Verification of the retry/recovery engine of the dashboard repository.

Two components are embedded from the source:

* `async_retry` — the asynchronous retry decorator of
  `src/scrapers/base_scraper.py` (lines 28–47).  It is modelled as a
  function from a per-invocation behaviour oracle to an outcome together
  with the observable invocation count and the list of awaited delays.

* `SynchronizedExcelProcessor` — the Excel-synchronisation worker of
  `src/excel_sync.py`.  Its `_run` method is modelled as a generator of an
  event trace over an environment oracle describing file existence, the
  outcome of every driver call in each attempt, teardown success, and the
  stop-flag value observed before each resource.
-/

namespace Dashboard

/-! ## Exceptions

A Python exception is modelled by a class identifier (`kind`) together
with a payload distinguishing individual exception objects.  The
`exceptions` tuple of `async_retry` becomes a Boolean predicate on
exceptions.  -/

structure Exc where
  kind : Nat
  payload : Nat
deriving DecidableEq, Repr

/-! ## `async_retry` (src/scrapers/base_scraper.py, lines 28–47)

The wrapped coroutine body is the oracle `op : Nat → Except Exc α`:
`op k` is the behaviour of `await func(*args, **kwargs)` when the local
variable `attempt` equals `k` (i.e. the `k+1`-st invocation).

Python's `max_attempts` is an `int`, so it is modelled as `Int`; the
local counter `attempt` starts at `0` and only increases, so it is a
`Nat`.  -/

/-- How one call of the wrapper terminates. -/
inductive RetryOutcome (α : Type) where
  /-- `return await func(...)` succeeded. -/
  | ok (v : α)
  /-- The `while` loop was never entered; the coroutine falls off the end
  and returns Python `None`. -/
  | implicitNone
  /-- `raise ScraperError(f"Operation ... failed after ... attempts") from e`:
  the exhaustion error carrying the operation name, the configured
  `max_attempts` and the last underlying cause. -/
  | scraperError (opName : String) (maxAttempts : Int) (cause : Exc)
  /-- An exception not matched by the `except exceptions` clause
  propagates unwrapped. -/
  | raised (e : Exc)
deriving DecidableEq, Repr

/-- Result of running the wrapper: outcome, number of invocations of the
wrapped operation, and the durations of the `asyncio.sleep(delay)` calls
in order. -/
structure RetryRun (α : Type) where
  outcome : RetryOutcome α
  invocations : Nat
  delays : List Rat
deriving DecidableEq, Repr

/-- The `while attempt < max_attempts` loop of `async_retry`, entered with
the counter at `attempt`. -/
def retryFrom {α : Type} (op : Nat → Except Exc α) (retryable : Exc → Bool)
    (maxAttempts : Int) (delay : Rat) (opName : String) (attempt : Nat) :
    RetryRun α :=
  if h : (attempt : Int) < maxAttempts then
    match op attempt with
    | .ok v => ⟨.ok v, 1, []⟩
    | .error e =>
      if retryable e then
        if ((attempt + 1 : Nat) : Int) ≥ maxAttempts then
          ⟨.scraperError opName maxAttempts e, 1, []⟩
        else
          let rest := retryFrom op retryable maxAttempts delay opName (attempt + 1)
          ⟨rest.outcome, rest.invocations + 1, delay :: rest.delays⟩
      else
        ⟨.raised e, 1, []⟩
  else
    ⟨.implicitNone, 0, []⟩
termination_by (maxAttempts - attempt).toNat
decreasing_by
  have : (attempt : Int) < maxAttempts := h
  omega

/-- `async_retry(max_attempts, delay, exceptions)` applied to an operation:
the loop starts with `attempt = 0`. -/
def async_retry {α : Type} (op : Nat → Except Exc α) (retryable : Exc → Bool)
    (maxAttempts : Int) (delay : Rat) (opName : String) : RetryRun α :=
  retryFrom op retryable maxAttempts delay opName 0

/-! ## Configuration constants (settings.py) -/

def SYNC_MAX_RETRIES : Nat := 5
def SYNC_RETRY_DELAY : Rat := 2
def REFRESH_INTERVAL : Rat := 5

/-! ## The Excel-synchronisation worker (src/excel_sync.py)

`SynchronizedExcelProcessor._run` drives a COM Excel application over a
list of file paths.  Each driver call (`Workbooks.Open`, `RefreshAll`,
`Save`, `Close`) may raise; the environment oracle fixes, per path and
per attempt index, which step (if any) raises.  Application teardown
(`Quit`) is best-effort: its success per application instance is also an
oracle.  The stop flag (`threading.Event`) value observed at the head of
each loop iteration is the oracle `stopSet` indexed by the resource's
position in the list.  -/

/-- Which driver call inside one retry-loop iteration raises. -/
inductive FailPoint where
  | atOpen
  | atRefresh
  | atSave
  | atClose
deriving DecidableEq, Repr

/-- Outcome of one iteration of the retry loop body for one resource. -/
inductive AttemptOutcome where
  | success
  | failAt (p : FailPoint)
deriving DecidableEq, Repr

/-- Driver-level environment oracle: behaviour of the file system and of
every COM driver call during one worker run. -/
structure DriverEnv where
  /-- `os.path.exists(file_path)`. -/
  fileExists : String → Bool
  /-- Behaviour of the retry-loop body for `path` when the local counter
  `retries` equals the given index (so index `k` is the `k+1`-st attempt). -/
  attemptOutcome : String → Nat → AttemptOutcome
  /-- Whether `excel.Quit()` succeeds for the application with the given id
  (`false` means `Quit` raised and was logged, best-effort). -/
  quitOk : Nat → Bool

/-- Full environment oracle for one worker run: the driver behaviour plus
the stop-flag values the loop observes. -/
structure WorkerEnv extends DriverEnv where
  /-- Value of `self.stop_event.is_set()` observed before the resource at
  the given list position. -/
  stopSet : Nat → Bool

/-- Observable events of one worker run, in order.  Application and
workbook handles are numbered in order of creation. -/
inductive Event where
  | coInit
  | createApp (app : Nat)
  | stopObserved
  | checkExists (path : String) (result : Bool)
  | skipMissing (path : String)
  | openWorkbook (app : Nat) (path : String) (wb : Nat)
  | refreshAll (wb : Nat)
  | refreshWait (seconds : Rat)
  | saveWorkbook (wb : Nat)
  | closeWorkbook (wb : Nat)
  | retryWait (seconds : Rat)
  | quitApp (app : Nat) (ok : Bool)
  | coUninit
deriving DecidableEq, Repr

/-- Mutable locals of `_run` threaded through the loop: the current
application handle (`excel`), plus fresh-id counters for applications and
workbooks. -/
structure WState where
  app : Nat
  nextApp : Nat
  nextWb : Nat
deriving DecidableEq, Repr

/-- Events produced by one iteration of the retry-loop body: the driver
calls that complete before the failing one.  The fixed post-refresh wait
is `time.sleep(settings.REFRESH_INTERVAL)` — the module constant, not the
processor's stored `refresh_interval`. -/
def attemptEvents (app wb : Nat) (path : String) : AttemptOutcome → List Event
  | .success =>
      [.openWorkbook app path wb, .refreshAll wb, .refreshWait REFRESH_INTERVAL,
       .saveWorkbook wb, .closeWorkbook wb]
  | .failAt .atOpen => []
  | .failAt .atRefresh => [.openWorkbook app path wb]
  | .failAt .atSave =>
      [.openWorkbook app path wb, .refreshAll wb, .refreshWait REFRESH_INTERVAL]
  | .failAt .atClose =>
      [.openWorkbook app path wb, .refreshAll wb, .refreshWait REFRESH_INTERVAL,
       .saveWorkbook wb]

/-- Whether the iteration allocated a workbook handle (i.e. `Workbooks.Open`
returned before any failure). -/
def attemptOpens : AttemptOutcome → Bool
  | .failAt .atOpen => false
  | _ => true

/-- The `while retries < self.max_retries` loop for one resource
(src/excel_sync.py lines 77–111), entered with the counter at `retries`.
Returns the emitted events, the number of loop iterations executed, and
the final locals.  On exhaustion the current application is quit
(best-effort) and a fresh one is dispatched; otherwise a failed attempt
waits `retry_delay` and retries with the same application. -/
def syncLoop (env : DriverEnv) (maxRetries : Nat) (retryDelay : Rat)
    (path : String) (st : WState) (retries : Nat) : List Event × Nat × WState :=
  if h : retries < maxRetries then
    let wb := st.nextWb
    match env.attemptOutcome path retries with
    | .success =>
        (attemptEvents st.app wb path .success, 1, { st with nextWb := wb + 1 })
    | .failAt fp =>
        let evs := attemptEvents st.app wb path (.failAt fp)
        let st1 := if attemptOpens (.failAt fp) then { st with nextWb := wb + 1 } else st
        if retries + 1 ≥ maxRetries then
          (evs ++ [.quitApp st1.app (env.quitOk st1.app), .createApp st1.nextApp],
           1,
           { st1 with app := st1.nextApp, nextApp := st1.nextApp + 1 })
        else
          let rest := syncLoop env maxRetries retryDelay path st1 (retries + 1)
          (evs ++ .retryWait retryDelay :: rest.1, rest.2.1 + 1, rest.2.2)
  else
    ([], 0, st)
termination_by maxRetries - retries

/-- Processing of one file path (src/excel_sync.py lines 69–111): the
existence check, then either skip or the retry loop. -/
def processResource (env : DriverEnv) (maxRetries : Nat) (retryDelay : Rat)
    (path : String) (st : WState) : List Event × Nat × WState :=
  if hx : env.fileExists path then
    let r := syncLoop env maxRetries retryDelay path st 0
    (.checkExists path true :: r.1, r.2.1, r.2.2)
  else
    ([.checkExists path false, .skipMissing path], 0, st)

/-- The `for file_path in self.file_paths` loop (lines 63–111), with `idx`
the position of the head of `paths` in the original list.  The stop flag
is consulted at the head of every iteration; when set, the loop breaks
after logging. -/
def runLoop (env : WorkerEnv) (maxRetries : Nat) (retryDelay : Rat) :
    List String → Nat → WState → List Event × WState
  | [], _, st => ([], st)
  | p :: rest, idx, st =>
      if env.stopSet idx then
        ([.stopObserved], st)
      else
        let r := processResource env.toDriverEnv maxRetries retryDelay p st
        let r2 := runLoop env maxRetries retryDelay rest (idx + 1) r.2.2
        (r.1 ++ r2.1, r2.2)

/-- The processor object (src/excel_sync.py lines 13–36): the fields
stored by `__init__`.  The thread handle and the stop event are modelled
separately (`stopSet` oracle and `StopFlagCall` below). -/
structure SynchronizedExcelProcessor where
  file_paths : List String
  max_retries : Nat
  retry_delay : Rat
  refresh_interval : Rat
deriving DecidableEq, Repr

/-- `SynchronizedExcelProcessor.__init__`: stores its four arguments. -/
def SynchronizedExcelProcessor.init (file_paths : List String)
    (max_retries : Nat) (retry_delay : Rat) (refresh_interval : Rat) :
    SynchronizedExcelProcessor :=
  ⟨file_paths, max_retries, retry_delay, refresh_interval⟩

/-- One full run of `_run` (lines 48–125): COM initialisation, initial
application dispatch, the resource loop, the final best-effort `Quit` of
the current application, COM uninitialisation.  Application construction
(`DispatchEx`) is modelled as always succeeding: the claims under study
confine driver failures to the per-resource retry loop. -/
def run (env : WorkerEnv) (proc : SynchronizedExcelProcessor) : List Event :=
  let r := runLoop env proc.max_retries proc.retry_delay proc.file_paths 0
      { app := 0, nextApp := 1, nextWb := 0 }
  .coInit :: .createApp 0 :: r.1
    ++ [.quitApp r.2.app (env.quitOk r.2.app), .coUninit]

/-! ## The stop flag as a state machine

`self.stop_event` is a `threading.Event`.  The processor's methods touch
it as follows: `stop()` calls `set()`; `_run` only reads it; `__init__`
creates it cleared; no method ever calls `clear()`. -/

/-- Calls on the processor that can see the stop event. -/
inductive StopFlagCall where
  /-- `stop()` — calls `self.stop_event.set()`. -/
  | stopCall
  /-- `start()` — does not touch the event. -/
  | startCall
  /-- any read of `self.stop_event.is_set()` inside `_run`. -/
  | runRead
deriving DecidableEq, Repr

/-- Effect of one call on the stored flag value. -/
def stopFlagStep (flag : Bool) : StopFlagCall → Bool
  | .stopCall => true
  | .startCall => flag
  | .runRead => flag

/-- Flag value after a sequence of calls. -/
def stopFlagAfter (flag : Bool) (calls : List StopFlagCall) : Bool :=
  calls.foldl stopFlagStep flag

/-! ## Evaluation lemmas for `retryFrom` -/

theorem retryFrom_not_entered {α : Type} (op : Nat → Except Exc α)
    (retryable : Exc → Bool) (maxAttempts : Int) (delay : Rat) (opName : String)
    (attempt : Nat) (h : ¬ ((attempt : Int) < maxAttempts)) :
    retryFrom op retryable maxAttempts delay opName attempt =
      ⟨.implicitNone, 0, []⟩ := by
  rw [retryFrom]
  simp [h]

theorem retryFrom_ok {α : Type} (op : Nat → Except Exc α)
    (retryable : Exc → Bool) (maxAttempts : Int) (delay : Rat) (opName : String)
    (attempt : Nat) (v : α) (h : (attempt : Int) < maxAttempts)
    (hop : op attempt = .ok v) :
    retryFrom op retryable maxAttempts delay opName attempt = ⟨.ok v, 1, []⟩ := by
  rw [retryFrom]
  simp [h, hop]

theorem retryFrom_exhaust {α : Type} (op : Nat → Except Exc α)
    (retryable : Exc → Bool) (maxAttempts : Int) (delay : Rat) (opName : String)
    (attempt : Nat) (e : Exc) (h : (attempt : Int) < maxAttempts)
    (hlast : ((attempt + 1 : Nat) : Int) ≥ maxAttempts)
    (hop : op attempt = .error e) (hr : retryable e = true) :
    retryFrom op retryable maxAttempts delay opName attempt =
      ⟨.scraperError opName maxAttempts e, 1, []⟩ := by
  rw [retryFrom]
  simp [h, hop, hr]
  omega

theorem retryFrom_retry {α : Type} (op : Nat → Except Exc α)
    (retryable : Exc → Bool) (maxAttempts : Int) (delay : Rat) (opName : String)
    (attempt : Nat) (e : Exc) (h : (attempt : Int) < maxAttempts)
    (hmore : ¬ (((attempt + 1 : Nat) : Int) ≥ maxAttempts))
    (hop : op attempt = .error e) (hr : retryable e = true) :
    retryFrom op retryable maxAttempts delay opName attempt =
      ⟨(retryFrom op retryable maxAttempts delay opName (attempt + 1)).outcome,
       (retryFrom op retryable maxAttempts delay opName (attempt + 1)).invocations + 1,
       delay :: (retryFrom op retryable maxAttempts delay opName (attempt + 1)).delays⟩ := by
  rw [retryFrom]
  simp [h, hop, hr]
  omega

theorem retryFrom_raise {α : Type} (op : Nat → Except Exc α)
    (retryable : Exc → Bool) (maxAttempts : Int) (delay : Rat) (opName : String)
    (attempt : Nat) (e : Exc) (h : (attempt : Int) < maxAttempts)
    (hop : op attempt = .error e) (hr : retryable e = false) :
    retryFrom op retryable maxAttempts delay opName attempt =
      ⟨.raised e, 1, []⟩ := by
  rw [retryFrom]
  simp [h, hop, hr]

/-- Helper for C6: starting at attempt `a`, after `k` retryable failures the
`k+1`-st invocation raises a non-retryable exception, which propagates
unwrapped with exactly `k` delays consumed. -/
theorem retryFrom_raised_after_fails {α : Type} (op : Nat → Except Exc α)
    (retryable : Exc → Bool) (maxAttempts : Int) (d : Rat) (name : String)
    (es : Nat → Exc) (k : Nat) :
    ∀ a : Nat, ((a + k : Nat) : Int) < maxAttempts →
    (∀ j, a ≤ j → j < a + k → op j = .error (es j) ∧ retryable (es j) = true) →
    op (a + k) = .error (es (a + k)) → retryable (es (a + k)) = false →
    retryFrom op retryable maxAttempts d name a =
      ⟨.raised (es (a + k)), k + 1, List.replicate k d⟩ := by
  induction k with
  | zero =>
      intro a hlt _ hop hnr
      simpa using retryFrom_raise op retryable maxAttempts d name a (es a)
        (by omega) (by simpa using hop) hnr
  | succ k ih =>
      intro a hlt hfails hop hnr
      have ha : op a = .error (es a) ∧ retryable (es a) = true :=
        hfails a (le_refl a) (by omega)
      have step := retryFrom_retry op retryable maxAttempts d name a (es a)
        (by omega) (by omega) ha.1 ha.2
      have tail := ih (a + 1) (by omega)
        (fun j hj1 hj2 => hfails j (by omega) (by omega))
        (by simpa [Nat.add_assoc, Nat.add_comm 1 k] using hop)
        (by simpa [Nat.add_assoc, Nat.add_comm 1 k] using hnr)
      rw [step, tail]
      have : a + 1 + k = a + (k + 1) := by omega
      simp [this, List.replicate]

/-- C2: with `max_attempts = 3`, an operation failing retryably on
attempts 1 and 2 and succeeding on attempt 3 makes the wrapper return the
success value after exactly 3 invocations with exactly 2 intervening
delays of `d`; an operation failing retryably on all 3 attempts makes the
wrapper raise exactly one `ScraperError` wrapping the 3rd failure's cause
and carrying the operation name, again after exactly 3 invocations. -/
theorem c2_wrapper_three_attempts {α : Type} (op : Nat → Except Exc α)
    (retryable : Exc → Bool) (d : Rat) (name : String) (v : α) (e1 e2 e3 : Exc)
    (h0 : op 0 = .error e1) (h1 : op 1 = .error e2)
    (hr1 : retryable e1 = true) (hr2 : retryable e2 = true) :
    (op 2 = .ok v →
      async_retry op retryable 3 d name = ⟨.ok v, 3, [d, d]⟩) ∧
    (op 2 = .error e3 → retryable e3 = true →
      async_retry op retryable 3 d name = ⟨.scraperError name 3 e3, 3, [d, d]⟩) := by
  have t0 := retryFrom_retry op retryable 3 d name 0 e1 (by omega) (by omega) h0 hr1
  have t1 := retryFrom_retry op retryable 3 d name 1 e2 (by omega) (by omega) h1 hr2
  constructor
  · intro h2
    have t2 := retryFrom_ok op retryable 3 d name 2 v (by omega) h2
    unfold async_retry
    rw [t0]
    simp only [show (0 + 1 : Nat) = 1 from rfl] at *
    rw [t1]
    simp only [show (1 + 1 : Nat) = 2 from rfl] at *
    rw [t2]
  · intro h2 hr3
    have t2 := retryFrom_exhaust op retryable 3 d name 2 e3 (by omega) (by omega) h2 hr3
    unfold async_retry
    rw [t0]
    simp only [show (0 + 1 : Nat) = 1 from rfl] at *
    rw [t1]
    simp only [show (1 + 1 : Nat) = 2 from rfl] at *
    rw [t2]

/-- Witness for C2 at a concrete operation. -/
theorem c2_wrapper_three_attempts_witness :
    (async_retry
        (fun k => if k = 0 then .error ⟨1, 0⟩ else
                  if k = 1 then .error ⟨1, 1⟩ else .ok 42)
        (fun _ => true) 3 1 "fetch_data" = ⟨.ok 42, 3, [1, 1]⟩) ∧
    (async_retry
        (fun k => (.error ⟨1, k⟩ : Except Exc Nat))
        (fun _ => true) 3 1 "fetch_data" =
          ⟨.scraperError "fetch_data" 3 ⟨1, 2⟩, 3, [1, 1]⟩) := by
  constructor
  · exact (c2_wrapper_three_attempts
      (fun k => if k = 0 then .error ⟨1, 0⟩ else
                if k = 1 then .error ⟨1, 1⟩ else .ok 42)
      (fun _ => true) 1 "fetch_data" 42 ⟨1, 0⟩ ⟨1, 1⟩ ⟨1, 2⟩
      rfl rfl rfl rfl).1 rfl
  · exact (c2_wrapper_three_attempts
      (fun k => (.error ⟨1, k⟩ : Except Exc Nat))
      (fun _ => true) 1 "fetch_data" 0 ⟨1, 0⟩ ⟨1, 1⟩ ⟨1, 2⟩
      rfl rfl rfl rfl).2 rfl rfl

/-- C6: a failure whose kind is not in the configured retryable set
propagates to the caller immediately and unwrapped: after `k` retryable
failures (`k` delays consumed), a non-retryable failure on the `k+1`-st
invocation yields exactly `k+1` invocations, exactly `k` delays (none for
the final failure), and the raised exception itself — not a
`ScraperError` — as the outcome, with no attempt consumed for it. -/
theorem c6_nonretryable_propagates {α : Type} (op : Nat → Except Exc α)
    (retryable : Exc → Bool) (maxAttempts : Int) (d : Rat) (name : String)
    (es : Nat → Exc) (k : Nat)
    (hk : ((k : Nat) : Int) < maxAttempts)
    (hfails : ∀ j, j < k → op j = .error (es j) ∧ retryable (es j) = true)
    (hop : op k = .error (es k)) (hnr : retryable (es k) = false) :
    async_retry op retryable maxAttempts d name =
      ⟨.raised (es k), k + 1, List.replicate k d⟩ := by
  have := retryFrom_raised_after_fails op retryable maxAttempts d name es k 0
    (by simpa using hk) (fun j hj1 hj2 => hfails j (by omega))
    (by simpa using hop) (by simpa using hnr)
  simpa [async_retry] using this

/-- Witness for C6: one retryable failure, then a non-retryable one. -/
theorem c6_nonretryable_propagates_witness :
    async_retry
      (fun k => if k = 0 then (.error ⟨1, 0⟩ : Except Exc Nat) else .error ⟨9, 9⟩)
      (fun e => e.kind == 1) 3 1 "login" = ⟨.raised ⟨9, 9⟩, 2, [1]⟩ := by
  have := c6_nonretryable_propagates
    (fun k => if k = 0 then (.error ⟨1, 0⟩ : Except Exc Nat) else .error ⟨9, 9⟩)
    (fun e => e.kind == 1) 3 1 "login"
    (fun k => if k = 0 then ⟨1, 0⟩ else ⟨9, 9⟩) 1
    (by omega)
    (fun j hj => by interval_cases j <;> exact ⟨rfl, rfl⟩)
    rfl rfl
  simpa using this

/-- C9: with a non-positive `max_attempts` the `while` loop is never
entered: the wrapped call completes normally returning Python `None`,
the underlying operation is never invoked, and nothing is raised. -/
theorem c9_nonpositive_max_attempts {α : Type} (op : Nat → Except Exc α)
    (retryable : Exc → Bool) (m : Int) (d : Rat) (name : String)
    (hm : m ≤ 0) :
    async_retry op retryable m d name = ⟨.implicitNone, 0, []⟩ :=
  retryFrom_not_entered op retryable m d name 0 (by omega)

/-- Witness for C9 at `max_attempts = 0` (and `-1`). -/
theorem c9_nonpositive_max_attempts_witness :
    async_retry (fun k => (.ok k : Except Exc Nat)) (fun _ => true) 0 1 "op"
        = ⟨.implicitNone, 0, []⟩ ∧
    async_retry (fun k => (.ok k : Except Exc Nat)) (fun _ => true) (-1) 1 "op"
        = ⟨.implicitNone, 0, []⟩ :=
  ⟨c9_nonpositive_max_attempts (fun k => .ok k) (fun _ => true) 0 1 "op" (by omega),
   c9_nonpositive_max_attempts (fun k => .ok k) (fun _ => true) (-1) 1 "op" (by omega)⟩

/-! ## Counting helpers over event traces -/

def Event.isQuit : Event → Bool
  | .quitApp _ _ => true
  | _ => false

def Event.isCreate : Event → Bool
  | .createApp _ => true
  | _ => false

def Event.isOpen : Event → Bool
  | .openWorkbook _ _ _ => true
  | _ => false

def Event.isCheck : Event → Bool
  | .checkExists _ _ => true
  | _ => false

def countEvents (p : Event → Bool) (tr : List Event) : Nat :=
  (tr.filter p).length

theorem countEvents_append (p : Event → Bool) (xs ys : List Event) :
    countEvents p (xs ++ ys) = countEvents p xs + countEvents p ys := by
  simp [countEvents, List.filter_append]

theorem countEvents_cons (p : Event → Bool) (e : Event) (tr : List Event) :
    countEvents p (e :: tr) = (if p e then 1 else 0) + countEvents p tr := by
  simp only [countEvents, List.filter_cons]
  split <;> simp [Nat.add_comm]

theorem attemptEvents_count_quit (a wb : Nat) (p : String) (o : AttemptOutcome) :
    countEvents Event.isQuit (attemptEvents a wb p o) = 0 := by
  rcases o with _ | fp
  · rfl
  · cases fp <;> rfl

theorem attemptEvents_count_create (a wb : Nat) (p : String) (o : AttemptOutcome) :
    countEvents Event.isCreate (attemptEvents a wb p o) = 0 := by
  rcases o with _ | fp
  · rfl
  · cases fp <;> rfl

/-! ## Step lemmas for `syncLoop` -/

theorem syncLoop_done (env : DriverEnv) (mr : Nat) (rd : Rat) (path : String)
    (st : WState) (retries : Nat) (hge : ¬ retries < mr) :
    syncLoop env mr rd path st retries = ([], 0, st) := by
  rw [syncLoop]
  simp [hge]

theorem syncLoop_success (env : DriverEnv) (mr : Nat) (rd : Rat) (path : String)
    (st : WState) (retries : Nat) (hlt : retries < mr)
    (hs : env.attemptOutcome path retries = .success) :
    syncLoop env mr rd path st retries =
      (attemptEvents st.app st.nextWb path .success, 1,
       { st with nextWb := st.nextWb + 1 }) := by
  rw [syncLoop]
  simp [hlt, hs]

theorem syncLoop_fail_step (env : DriverEnv) (mr : Nat) (rd : Rat) (path : String)
    (st : WState) (retries : Nat) (fp : FailPoint) (hlt : retries < mr)
    (hfp : env.attemptOutcome path retries = .failAt fp) :
    syncLoop env mr rd path st retries =
      (let st1 := if attemptOpens (.failAt fp) then
          { st with nextWb := st.nextWb + 1 } else st
       if retries + 1 ≥ mr then
        (attemptEvents st.app st.nextWb path (.failAt fp) ++
          [.quitApp st1.app (env.quitOk st1.app), .createApp st1.nextApp], 1,
         { st1 with app := st1.nextApp, nextApp := st1.nextApp + 1 })
       else
        (attemptEvents st.app st.nextWb path (.failAt fp) ++
          .retryWait rd :: (syncLoop env mr rd path st1 (retries + 1)).1,
         (syncLoop env mr rd path st1 (retries + 1)).2.1 + 1,
         (syncLoop env mr rd path st1 (retries + 1)).2.2)) := by
  rw [syncLoop]
  simp only [hlt, dif_pos, hfp]

/-- Helper for C1: if every attempt of `path` fails, the retry loop
entered with `fuel` attempts remaining performs exactly `fuel` iterations,
quits the current application exactly once, dispatches a fresh one exactly
once, and leaves the fresh application as the current one. -/
theorem syncLoop_all_fail (env : DriverEnv) (mr : Nat) (rd : Rat) (path : String) :
    ∀ fuel retries st, retries + fuel = mr → 0 < fuel →
    (∀ k, k < mr → env.attemptOutcome path k ≠ .success) →
    ∃ evs w,
      syncLoop env mr rd path st retries =
        (evs, fuel, ⟨st.nextApp, st.nextApp + 1, w⟩) ∧
      countEvents Event.isQuit evs = 1 ∧
      countEvents Event.isCreate evs = 1 := by
  intro fuel
  induction fuel with
  | zero => omega
  | succ k ih =>
      intro retries st hsum _ hfail
      have hlt : retries < mr := by omega
      obtain ⟨fp, hfp⟩ : ∃ fp, env.attemptOutcome path retries = .failAt fp := by
        cases h : env.attemptOutcome path retries with
        | success => exact absurd h (hfail retries hlt)
        | failAt fp => exact ⟨fp, rfl⟩
      rw [syncLoop_fail_step env mr rd path st retries fp hlt hfp]
      cases hb : attemptOpens (.failAt fp) <;>
      simp only [hb, if_true, if_false, Bool.false_eq_true] <;>
      [skip; skip] <;>
      rcases Nat.eq_zero_or_pos k with hk | hk
      case false.inl =>
        subst hk
        have hex : retries + 1 ≥ mr := by omega
        rw [if_pos hex]
        refine ⟨_, st.nextWb, rfl, ?_, ?_⟩
        · rw [countEvents_append, attemptEvents_count_quit]
          exact rfl
        · rw [countEvents_append, attemptEvents_count_create]
          exact rfl
      case false.inr =>
        have hmore : ¬ (retries + 1 ≥ mr) := by omega
        rw [if_neg hmore]
        obtain ⟨evs2, w, heq, hq, hc⟩ := ih (retries + 1) st (by omega) hk hfail
        rw [heq]
        refine ⟨_, w, rfl, ?_, ?_⟩
        · rw [countEvents_append, attemptEvents_count_quit, countEvents_cons]
          simpa [Event.isQuit] using hq
        · rw [countEvents_append, attemptEvents_count_create, countEvents_cons]
          simpa [Event.isCreate] using hc
      case true.inl =>
        subst hk
        have hex : retries + 1 ≥ mr := by omega
        rw [if_pos hex]
        refine ⟨_, st.nextWb + 1, rfl, ?_, ?_⟩
        · rw [countEvents_append, attemptEvents_count_quit]
          exact rfl
        · rw [countEvents_append, attemptEvents_count_create]
          exact rfl
      case true.inr =>
        have hmore : ¬ (retries + 1 ≥ mr) := by omega
        rw [if_neg hmore]
        obtain ⟨evs2, w, heq, hq, hc⟩ :=
          ih (retries + 1) { st with nextWb := st.nextWb + 1 } (by omega) hk hfail
        rw [heq]
        refine ⟨_, w, rfl, ?_, ?_⟩
        · rw [countEvents_append, attemptEvents_count_quit, countEvents_cons]
          simpa [Event.isQuit] using hq
        · rw [countEvents_append, attemptEvents_count_create, countEvents_cons]
          simpa [Event.isCreate] using hc

theorem syncLoop_fail_exhaust (env : DriverEnv) (mr : Nat) (rd : Rat)
    (path : String) (st : WState) (retries : Nat) (fp : FailPoint)
    (hlt : retries < mr) (hfp : env.attemptOutcome path retries = .failAt fp)
    (hex : retries + 1 ≥ mr) :
    syncLoop env mr rd path st retries =
      (attemptEvents st.app st.nextWb path (.failAt fp) ++
         [.quitApp st.app (env.quitOk st.app), .createApp st.nextApp], 1,
       ⟨st.nextApp, st.nextApp + 1,
        if attemptOpens (.failAt fp) then st.nextWb + 1 else st.nextWb⟩) := by
  rw [syncLoop_fail_step env mr rd path st retries fp hlt hfp]
  cases hb : attemptOpens (.failAt fp) <;> simp [hb, hex]

theorem syncLoop_fail_retry (env : DriverEnv) (mr : Nat) (rd : Rat)
    (path : String) (st : WState) (retries : Nat) (fp : FailPoint)
    (hlt : retries < mr) (hfp : env.attemptOutcome path retries = .failAt fp)
    (hmore : ¬ (retries + 1 ≥ mr)) :
    syncLoop env mr rd path st retries =
      (attemptEvents st.app st.nextWb path (.failAt fp) ++
        .retryWait rd :: (syncLoop env mr rd path
          ⟨st.app, st.nextApp,
           if attemptOpens (.failAt fp) then st.nextWb + 1 else st.nextWb⟩
          (retries + 1)).1,
       (syncLoop env mr rd path
          ⟨st.app, st.nextApp,
           if attemptOpens (.failAt fp) then st.nextWb + 1 else st.nextWb⟩
          (retries + 1)).2.1 + 1,
       (syncLoop env mr rd path
          ⟨st.app, st.nextApp,
           if attemptOpens (.failAt fp) then st.nextWb + 1 else st.nextWb⟩
          (retries + 1)).2.2) := by
  rw [syncLoop_fail_step env mr rd path st retries fp hlt hfp]
  cases hb : attemptOpens (.failAt fp) <;> simp [hb, hmore]

/-! ## Step lemmas for `processResource` and `runLoop` -/

theorem processResource_exists (env : DriverEnv) (mr : Nat) (rd : Rat)
    (path : String) (st : WState) (hex : env.fileExists path = true) :
    processResource env mr rd path st =
      (.checkExists path true :: (syncLoop env mr rd path st 0).1,
       (syncLoop env mr rd path st 0).2.1, (syncLoop env mr rd path st 0).2.2) := by
  simp [processResource, hex]

theorem processResource_missing (env : DriverEnv) (mr : Nat) (rd : Rat)
    (path : String) (st : WState) (hex : env.fileExists path = false) :
    processResource env mr rd path st =
      ([.checkExists path false, .skipMissing path], 0, st) := by
  simp [processResource, hex]

theorem runLoop_nil (env : WorkerEnv) (mr : Nat) (rd : Rat) (idx : Nat)
    (st : WState) : runLoop env mr rd [] idx st = ([], st) := rfl

theorem runLoop_stop (env : WorkerEnv) (mr : Nat) (rd : Rat) (p : String)
    (rest : List String) (idx : Nat) (st : WState)
    (hstop : env.stopSet idx = true) :
    runLoop env mr rd (p :: rest) idx st = ([.stopObserved], st) := by
  simp [runLoop, hstop]

theorem runLoop_go (env : WorkerEnv) (mr : Nat) (rd : Rat) (p : String)
    (rest : List String) (idx : Nat) (st : WState)
    (hstop : env.stopSet idx = false) :
    runLoop env mr rd (p :: rest) idx st =
      ((processResource env.toDriverEnv mr rd p st).1 ++
         (runLoop env mr rd rest (idx + 1)
           (processResource env.toDriverEnv mr rd p st).2.2).1,
       (runLoop env mr rd rest (idx + 1)
         (processResource env.toDriverEnv mr rd p st).2.2).2) := by
  simp [runLoop, hstop]

/-- C1: for a resource that exists and fails every attempt under
`max_retries = m ≥ 1`, the worker performs exactly `m` refresh attempts,
quits the current Excel application exactly once and dispatches a fresh
one exactly once within that resource's events, and then continues with
the next resources (from the fresh application) without ever retrying the
failed resource again. -/
theorem c1_exhausted_resource_recreates_once (env : WorkerEnv) (mr : Nat)
    (rd : Rat) (path : String) (rest : List String) (idx : Nat) (st : WState)
    (hm : 1 ≤ mr) (hex : env.fileExists path = true)
    (hstop : env.stopSet idx = false)
    (hfail : ∀ k, k < mr → env.attemptOutcome path k ≠ .success) :
    ∃ evs w,
      processResource env.toDriverEnv mr rd path st =
        (evs, mr, ⟨st.nextApp, st.nextApp + 1, w⟩) ∧
      countEvents Event.isQuit evs = 1 ∧
      countEvents Event.isCreate evs = 1 ∧
      runLoop env mr rd (path :: rest) idx st =
        (evs ++ (runLoop env mr rd rest (idx + 1) ⟨st.nextApp, st.nextApp + 1, w⟩).1,
         (runLoop env mr rd rest (idx + 1) ⟨st.nextApp, st.nextApp + 1, w⟩).2) := by
  obtain ⟨evs0, w, heq, hq, hc⟩ :=
    syncLoop_all_fail env.toDriverEnv mr rd path mr 0 st (by omega) (by omega) hfail
  have hpr : processResource env.toDriverEnv mr rd path st =
      (.checkExists path true :: evs0, mr, ⟨st.nextApp, st.nextApp + 1, w⟩) := by
    rw [processResource_exists env.toDriverEnv mr rd path st hex, heq]
  refine ⟨.checkExists path true :: evs0, w, hpr, ?_, ?_, ?_⟩
  · rw [countEvents_cons]
    simpa [Event.isQuit] using hq
  · rw [countEvents_cons]
    simpa [Event.isCreate] using hc
  · rw [runLoop_go env mr rd path rest idx st hstop, hpr]

/-- Concrete environment for the C1 witness: every attempt of every file
fails during `RefreshAll`. -/
def envAllFail : WorkerEnv :=
  { fileExists := fun _ => true
    attemptOutcome := fun _ _ => .failAt .atRefresh
    quitOk := fun _ => true
    stopSet := fun _ => false }

/-- Witness for C1 with `max_retries = 2` and a second resource left. -/
theorem c1_exhausted_resource_recreates_once_witness :
    ∃ evs w,
      processResource envAllFail.toDriverEnv 2 1 "C.xlsx" ⟨0, 1, 0⟩ =
        (evs, 2, ⟨1, 2, w⟩) ∧
      countEvents Event.isQuit evs = 1 ∧
      countEvents Event.isCreate evs = 1 ∧
      runLoop envAllFail 2 1 ["C.xlsx", "D.xlsx"] 0 ⟨0, 1, 0⟩ =
        (evs ++ (runLoop envAllFail 2 1 ["D.xlsx"] 1 ⟨1, 2, w⟩).1,
         (runLoop envAllFail 2 1 ["D.xlsx"] 1 ⟨1, 2, w⟩).2) :=
  c1_exhausted_resource_recreates_once envAllFail 2 1 "C.xlsx" ["D.xlsx"] 0
    ⟨0, 1, 0⟩ (by omega) rfl rfl
    (fun k hk => by simp [envAllFail])

/-- Helper for C7: over the resource loop with the stop flag never set and
every existing resource succeeding on its first attempt, the existence
check happens once per path, exactly the existing paths produce an open,
and every missing path is logged as skipped. -/
theorem runLoop_firstTry_counts (env : WorkerEnv) (mr : Nat) (rd : Rat)
    (hstop : ∀ j, env.stopSet j = false) (hm : 1 ≤ mr)
    (hsucc : ∀ p, env.fileExists p = true → env.attemptOutcome p 0 = .success) :
    ∀ (paths : List String) (idx : Nat) (st : WState),
    countEvents Event.isCheck (runLoop env mr rd paths idx st).1 = paths.length ∧
    countEvents Event.isOpen (runLoop env mr rd paths idx st).1 =
      (paths.filter (fun p => env.fileExists p)).length ∧
    ∀ p, p ∈ paths → env.fileExists p = false →
      Event.skipMissing p ∈ (runLoop env mr rd paths idx st).1 := by
  intro paths
  induction paths with
  | nil => intro idx st; simp [runLoop_nil, countEvents]
  | cons p rest ih =>
      intro idx st
      rw [runLoop_go env mr rd p rest idx st (hstop idx)]
      cases hex : env.fileExists p with
      | false =>
          rw [processResource_missing env.toDriverEnv mr rd p st hex]
          obtain ⟨ihc, iho, ihm⟩ := ih (idx + 1) st
          refine ⟨?_, ?_, ?_⟩
          · rw [countEvents_append, ihc]
            simp [countEvents, Event.isCheck, Nat.add_comm]
          · rw [countEvents_append, iho]
            simp [countEvents, Event.isOpen, List.filter_cons, hex]
          · intro q hq hqex
            rcases List.mem_cons.mp hq with hq | hq
            · subst hq
              exact List.mem_append_left _ (by simp)
            · exact List.mem_append_right _ (ihm q hq hqex)
      | true =>
          rw [processResource_exists env.toDriverEnv mr rd p st hex,
            syncLoop_success env.toDriverEnv mr rd p st 0 (by omega) (hsucc p hex)]
          obtain ⟨ihc, iho, ihm⟩ := ih (idx + 1) { st with nextWb := st.nextWb + 1 }
          refine ⟨?_, ?_, ?_⟩
          · rw [countEvents_append, ihc]
            simp [countEvents, Event.isCheck, attemptEvents, Nat.add_comm]
          · rw [countEvents_append, iho]
            simp [countEvents, Event.isOpen, attemptEvents, List.filter_cons, hex,
              Nat.add_comm]
          · intro q hq hqex
            rcases List.mem_cons.mp hq with hq | hq
            · subst hq
              rw [hqex] at hex
              exact absurd hex (by simp)
            · exact List.mem_append_right _ (ihm q hq hqex)

/-- C7: in a run with the stop flag never set and every existing resource
succeeding on its first attempt, the existence predicate is consulted on
all `n` paths, exactly the existing paths (`n - k` of them, `k` missing)
are opened, and each missing resource is skipped with a log record, not
treated as an error. -/
theorem c7_missing_resources_skipped (env : WorkerEnv)
    (proc : SynchronizedExcelProcessor)
    (hstop : ∀ j, env.stopSet j = false) (hm : 1 ≤ proc.max_retries)
    (hsucc : ∀ p, env.fileExists p = true → env.attemptOutcome p 0 = .success) :
    countEvents Event.isCheck (run env proc) = proc.file_paths.length ∧
    countEvents Event.isOpen (run env proc) =
      (proc.file_paths.filter (fun p => env.fileExists p)).length ∧
    ∀ p, p ∈ proc.file_paths → env.fileExists p = false →
      Event.skipMissing p ∈ run env proc := by
  obtain ⟨hc, ho, hmem⟩ := runLoop_firstTry_counts env proc.max_retries
    proc.retry_delay hstop hm hsucc proc.file_paths 0 ⟨0, 1, 0⟩
  simp only [run]
  refine ⟨?_, ?_, ?_⟩
  · rw [countEvents_append, countEvents_cons, countEvents_cons, hc]
    simp [countEvents, Event.isCheck]
  · rw [countEvents_append, countEvents_cons, countEvents_cons, ho]
    simp [countEvents, Event.isOpen]
  · intro p hp hpex
    have := hmem p hp hpex
    exact List.mem_append_left _
      (List.mem_cons_of_mem _ (List.mem_cons_of_mem _ this))

/-- Concrete environment for the C7 witness: `b.xlsx` is missing, the
others exist and succeed immediately. -/
def envOneMissing : WorkerEnv :=
  { fileExists := fun p => p ≠ "b.xlsx"
    attemptOutcome := fun _ _ => .success
    quitOk := fun _ => true
    stopSet := fun _ => false }

/-- Witness for C7 on three paths with one missing. -/
theorem c7_missing_resources_skipped_witness :
    countEvents Event.isCheck
      (run envOneMissing (.init ["a.xlsx", "b.xlsx", "c.xlsx"] 5 2 5)) = 3 ∧
    countEvents Event.isOpen
      (run envOneMissing (.init ["a.xlsx", "b.xlsx", "c.xlsx"] 5 2 5)) = 2 ∧
    Event.skipMissing "b.xlsx" ∈
      run envOneMissing (.init ["a.xlsx", "b.xlsx", "c.xlsx"] 5 2 5) := by
  obtain ⟨hc, ho, hmem⟩ := c7_missing_resources_skipped envOneMissing
    (.init ["a.xlsx", "b.xlsx", "c.xlsx"] 5 2 5)
    (fun j => rfl) (by decide)
    (fun p _ => rfl)
  refine ⟨by simpa using hc, ?_, hmem "b.xlsx" (by decide) ?_⟩
  · rw [ho]
    rfl
  · decide

/-- Helper for C8: with the stop flag never set, the loop reaches every
resource in the list — its existence check appears in the trace —
whatever the attempt outcomes and teardown results are. -/
theorem runLoop_reaches_all (env : WorkerEnv) (mr : Nat) (rd : Rat)
    (hstop : ∀ j, env.stopSet j = false) :
    ∀ (paths : List String) (idx : Nat) (st : WState) (p : String),
    p ∈ paths →
    Event.checkExists p (env.fileExists p) ∈ (runLoop env mr rd paths idx st).1 := by
  intro paths
  induction paths with
  | nil => intro idx st p hp; cases hp
  | cons q rest ih =>
      intro idx st p hp
      rw [runLoop_go env mr rd q rest idx st (hstop idx)]
      rcases List.mem_cons.mp hp with hq | hq
      · subst hq
        cases hex : env.fileExists p with
        | false =>
            rw [processResource_missing env.toDriverEnv mr rd p st hex]
            exact List.mem_append_left _ (by simp)
        | true =>
            rw [processResource_exists env.toDriverEnv mr rd p st hex]
            exact List.mem_append_left _ (by simp)
      · exact List.mem_append_right _ (ih (idx + 1) _ p hq)

/-- C8: a worker run never aborts early because of a resource's failures.
For every pattern of driver-call failures confined to the per-resource
retry loop (any `attemptOutcome`, including exhaustion, and any teardown
results), as long as the stop flag is never set the run still reaches
every resource in the list (its existence check occurs) and terminates
normally, with `CoUninitialize` as its final event. -/
theorem c8_never_aborts_early (env : WorkerEnv)
    (proc : SynchronizedExcelProcessor)
    (hstop : ∀ j, env.stopSet j = false) :
    (∀ p, p ∈ proc.file_paths →
      Event.checkExists p (env.fileExists p) ∈ run env proc) ∧
    (run env proc).getLast? = some .coUninit := by
  constructor
  · intro p hp
    have := runLoop_reaches_all env proc.max_retries proc.retry_delay hstop
      proc.file_paths 0 ⟨0, 1, 0⟩ p hp
    simp only [run]
    exact List.mem_append_left _
      (List.mem_cons_of_mem _ (List.mem_cons_of_mem _ this))
  · simp only [run]
    rw [List.getLast?_append_of_ne_nil _ (by simp)]
    rfl

/-- Witness for C8 with every attempt of every resource failing. -/
theorem c8_never_aborts_early_witness :
    Event.checkExists "b.xlsx" true ∈
      run envAllFail (.init ["a.xlsx", "b.xlsx"] 3 2 5) ∧
    (run envAllFail (.init ["a.xlsx", "b.xlsx"] 3 2 5)).getLast? =
      some .coUninit := by
  obtain ⟨hmem, hlast⟩ := c8_never_aborts_early envAllFail
    (.init ["a.xlsx", "b.xlsx"] 3 2 5) (fun j => rfl)
  exact ⟨hmem "b.xlsx" (by decide), hlast⟩

/-! ## C10: the post-refresh wait ignores the stored `refresh_interval` -/

theorem refreshWait_attemptEvents (a wb : Nat) (p : String) (o : AttemptOutcome)
    (s : Rat) (hs : Event.refreshWait s ∈ attemptEvents a wb p o) :
    s = REFRESH_INTERVAL := by
  rcases o with _ | fp
  · simp [attemptEvents] at hs
    exact hs
  · cases fp <;> simp [attemptEvents] at hs <;> exact hs

theorem refreshWait_syncLoop (env : DriverEnv) (mr : Nat) (rd : Rat)
    (path : String) :
    ∀ (fuel retries : Nat) (st : WState) (s : Rat), mr - retries ≤ fuel →
    Event.refreshWait s ∈ (syncLoop env mr rd path st retries).1 →
    s = REFRESH_INTERVAL := by
  intro fuel
  induction fuel with
  | zero =>
      intro retries st s hf hs
      rw [syncLoop_done env mr rd path st retries (by omega)] at hs
      cases hs
  | succ k ih =>
      intro retries st s hf hs
      by_cases hlt : retries < mr
      · cases ho : env.attemptOutcome path retries with
        | success =>
            rw [syncLoop_success env mr rd path st retries hlt ho] at hs
            exact refreshWait_attemptEvents st.app st.nextWb path .success s hs
        | failAt fp =>
            rw [syncLoop_fail_step env mr rd path st retries fp hlt ho] at hs
            simp only at hs
            by_cases hex : retries + 1 ≥ mr
            · rw [if_pos hex] at hs
              rcases List.mem_append.mp hs with h | h
              · exact refreshWait_attemptEvents _ _ _ _ _ h
              · simp at h
            · rw [if_neg hex] at hs
              rcases List.mem_append.mp hs with h | h
              · exact refreshWait_attemptEvents _ _ _ _ _ h
              · rcases List.mem_cons.mp h with h | h
                · cases h
                · exact ih (retries + 1) _ s (by omega) h
      · rw [syncLoop_done env mr rd path st retries hlt] at hs
        cases hs

theorem refreshWait_runLoop (env : WorkerEnv) (mr : Nat) (rd : Rat) :
    ∀ (paths : List String) (idx : Nat) (st : WState) (s : Rat),
    Event.refreshWait s ∈ (runLoop env mr rd paths idx st).1 →
    s = REFRESH_INTERVAL := by
  intro paths
  induction paths with
  | nil => intro idx st s hs; cases hs
  | cons p rest ih =>
      intro idx st s hs
      cases hstop : env.stopSet idx with
      | true =>
          rw [runLoop_stop env mr rd p rest idx st hstop] at hs
          simp at hs
      | false =>
          rw [runLoop_go env mr rd p rest idx st hstop] at hs
          rcases List.mem_append.mp hs with h | h
          · cases hex : env.fileExists p with
            | false =>
                rw [processResource_missing env.toDriverEnv mr rd p st hex] at h
                simp at h
            | true =>
                rw [processResource_exists env.toDriverEnv mr rd p st hex] at h
                rcases List.mem_cons.mp h with h | h
                · cases h
                · exact refreshWait_syncLoop env.toDriverEnv mr rd p mr 0 st s
                    (by omega) h
          · exact ih (idx + 1) _ s h

/-- C10: the `refresh_interval` argument is stored on the processor by
`__init__` but has no effect on the run: the post-`RefreshAll` wait
always lasts the module constant `REFRESH_INTERVAL`, and two processors
differing only in `refresh_interval` produce identical runs in every
environment. -/
theorem c10_refresh_wait_ignores_field (env : WorkerEnv) (fps : List String)
    (m : Nat) (d r r2 : Rat) :
    (SynchronizedExcelProcessor.init fps m d r).refresh_interval = r ∧
    run env (SynchronizedExcelProcessor.init fps m d r) =
      run env (SynchronizedExcelProcessor.init fps m d r2) ∧
    ∀ s, Event.refreshWait s ∈ run env (SynchronizedExcelProcessor.init fps m d r) →
      s = REFRESH_INTERVAL := by
  refine ⟨rfl, rfl, ?_⟩
  intro s hs
  simp only [run] at hs
  rcases List.mem_append.mp hs with h | h
  · rcases List.mem_cons.mp h with h | h
    · cases h
    · rcases List.mem_cons.mp h with h | h
      · cases h
      · exact refreshWait_runLoop env _ _ fps 0 ⟨0, 1, 0⟩ s h
  · simp at h

/-! ## C4: the stop signal -/

/-- The same environment with the stop flag never observed set. -/
def noStop (env : WorkerEnv) : WorkerEnv :=
  { env with stopSet := fun _ => false }

theorem noStop_toDriverEnv (env : WorkerEnv) :
    (noStop env).toDriverEnv = env.toDriverEnv := rfl

theorem noStop_stopSet (env : WorkerEnv) (j : Nat) :
    (noStop env).stopSet j = false := rfl

/-- Helper for C4: if the stop flag is first observed set at position
`idx + i`, the loop behaves exactly like the stop-free loop over the
first `i` remaining resources, followed by the stop observation. -/
theorem runLoop_stop_at (env : WorkerEnv) (mr : Nat) (rd : Rat) :
    ∀ (i : Nat) (paths : List String) (idx : Nat) (st : WState),
    (∀ j, j < i → env.stopSet (idx + j) = false) →
    env.stopSet (idx + i) = true →
    i < paths.length →
    runLoop env mr rd paths idx st =
      ((runLoop (noStop env) mr rd (paths.take i) idx st).1 ++ [.stopObserved],
       (runLoop (noStop env) mr rd (paths.take i) idx st).2) := by
  intro i
  induction i with
  | zero =>
      intro paths idx st _ hi hlen
      cases paths with
      | nil => simp at hlen
      | cons p rest =>
          rw [runLoop_stop env mr rd p rest idx st (by simpa using hi)]
          simp [runLoop_nil]
  | succ i ih =>
      intro paths idx st hbefore hi hlen
      cases paths with
      | nil => simp at hlen
      | cons p rest =>
          have h0 : env.stopSet idx = false := by simpa using hbefore 0 (by omega)
          rw [runLoop_go env mr rd p rest idx st h0]
          rw [List.take_succ_cons]
          rw [runLoop_go (noStop env) mr rd p (rest.take i) idx st (noStop_stopSet env idx)]
          rw [noStop_toDriverEnv]
          rw [ih rest (idx + 1) (processResource env.toDriverEnv mr rd p st).2.2
            (fun j hj => by
              have := hbefore (j + 1) (by omega)
              simpa [Nat.add_assoc, Nat.add_comm 1 j] using this)
            (by
              have : idx + 1 + i = idx + (i + 1) := by omega
              rw [this]; exact hi)
            (by simpa using hlen)]
          simp

theorem openWorkbook_attemptEvents (a wb : Nat) (p : String) (o : AttemptOutcome)
    (a2 wb2 : Nat) (q : String)
    (hm : Event.openWorkbook a2 q wb2 ∈ attemptEvents a wb p o) : q = p := by
  rcases o with _ | fp
  · simp [attemptEvents] at hm
    exact hm.2.1
  · cases fp <;> simp [attemptEvents] at hm <;> tauto

theorem openWorkbook_syncLoop (env : DriverEnv) (mr : Nat) (rd : Rat)
    (path : String) :
    ∀ (fuel retries : Nat) (st : WState) (a wb : Nat) (q : String),
    mr - retries ≤ fuel →
    Event.openWorkbook a q wb ∈ (syncLoop env mr rd path st retries).1 →
    q = path := by
  intro fuel
  induction fuel with
  | zero =>
      intro retries st a wb q hf hm
      rw [syncLoop_done env mr rd path st retries (by omega)] at hm
      cases hm
  | succ k ih =>
      intro retries st a wb q hf hm
      by_cases hlt : retries < mr
      · cases ho : env.attemptOutcome path retries with
        | success =>
            rw [syncLoop_success env mr rd path st retries hlt ho] at hm
            exact openWorkbook_attemptEvents st.app st.nextWb path .success a wb q hm
        | failAt fp =>
            rw [syncLoop_fail_step env mr rd path st retries fp hlt ho] at hm
            simp only at hm
            by_cases hex : retries + 1 ≥ mr
            · rw [if_pos hex] at hm
              rcases List.mem_append.mp hm with h | h
              · exact openWorkbook_attemptEvents _ _ path (.failAt fp) a wb q h
              · simp at h
            · rw [if_neg hex] at hm
              rcases List.mem_append.mp hm with h | h
              · exact openWorkbook_attemptEvents _ _ path (.failAt fp) a wb q h
              · rcases List.mem_cons.mp h with h | h
                · cases h
                · exact ih (retries + 1) _ a wb q (by omega) h
      · rw [syncLoop_done env mr rd path st retries hlt] at hm
        cases hm

theorem openWorkbook_runLoop (env : WorkerEnv) (mr : Nat) (rd : Rat) :
    ∀ (paths : List String) (idx : Nat) (st : WState) (a wb : Nat) (q : String),
    Event.openWorkbook a q wb ∈ (runLoop env mr rd paths idx st).1 →
    q ∈ paths := by
  intro paths
  induction paths with
  | nil => intro idx st a wb q hm; cases hm
  | cons p rest ih =>
      intro idx st a wb q hm
      cases hstop : env.stopSet idx with
      | true =>
          rw [runLoop_stop env mr rd p rest idx st hstop] at hm
          simp at hm
      | false =>
          rw [runLoop_go env mr rd p rest idx st hstop] at hm
          rcases List.mem_append.mp hm with h | h
          · cases hex : env.fileExists p with
            | false =>
                rw [processResource_missing env.toDriverEnv mr rd p st hex] at h
                simp at h
            | true =>
                rw [processResource_exists env.toDriverEnv mr rd p st hex] at h
                rcases List.mem_cons.mp h with h | h
                · cases h
                · have := openWorkbook_syncLoop env.toDriverEnv mr rd p mr 0
                    st a wb q (by omega) h
                  simp [this]
          · exact List.mem_cons_of_mem _ (ih (idx + 1) _ a wb q h)

/-- The stop flag is monotone: once `stop()` has set it, no processor
call ever clears it (`threading.Event.clear` is never invoked). -/
theorem stopFlagAfter_stays_set (calls : List StopFlagCall) :
    stopFlagAfter true calls = true := by
  induction calls with
  | nil => rfl
  | cons c cs ih => cases c <;> exact ih

/-- C4: if the stop flag is first observed set before resource `i` (unset
before resources `0..i-1`), the run equals the stop-free run over the
first `i` resources followed by the stop observation and the normal
shutdown — the completed resources' effects are exactly those of the
stop-free run (no rollback) — no resource from position `i` onwards is
ever opened, and the flag, once set, is never cleared by any sequence of
processor calls. -/
theorem c4_stop_skips_remaining (env : WorkerEnv)
    (proc : SynchronizedExcelProcessor) (i : Nat)
    (hmono : ∀ j k, j ≤ k → env.stopSet j = true → env.stopSet k = true)
    (hbefore : ∀ j, j < i → env.stopSet j = false)
    (hi : env.stopSet i = true)
    (hlen : i < proc.file_paths.length) :
    (run env proc =
      .coInit :: .createApp 0 ::
        (runLoop (noStop env) proc.max_retries proc.retry_delay
            (proc.file_paths.take i) 0 ⟨0, 1, 0⟩).1 ++
        [.stopObserved,
         .quitApp (runLoop (noStop env) proc.max_retries proc.retry_delay
             (proc.file_paths.take i) 0 ⟨0, 1, 0⟩).2.app
           (env.quitOk (runLoop (noStop env) proc.max_retries proc.retry_delay
             (proc.file_paths.take i) 0 ⟨0, 1, 0⟩).2.app),
         .coUninit]) ∧
    (∀ a p wb, Event.openWorkbook a p wb ∈ run env proc →
      p ∈ proc.file_paths.take i) ∧
    (∀ calls : List StopFlagCall, stopFlagAfter true calls = true) := by
  have hloop := runLoop_stop_at env proc.max_retries proc.retry_delay i
    proc.file_paths 0 ⟨0, 1, 0⟩ (fun j hj => by simpa using hbefore j hj)
    (by simpa using hi) hlen
  refine ⟨?_, ?_, fun calls => stopFlagAfter_stays_set calls⟩
  · simp only [run, hloop]
    simp
  · intro a p wb hm
    simp only [run, hloop] at hm
    rcases List.mem_cons.mp hm with h | h
    · cases h
    rcases List.mem_cons.mp h with h | h
    · cases h
    rcases List.mem_append.mp h with h | h
    · rcases List.mem_append.mp h with h | h
      · exact openWorkbook_runLoop (noStop env) proc.max_retries proc.retry_delay
          (proc.file_paths.take i) 0 ⟨0, 1, 0⟩ a wb p h
      · simp at h
    · simp at h

/-- Concrete environment for the C4 witness: stop first observed set at
position 1, every file existing and succeeding immediately. -/
def envStopAt1 : WorkerEnv :=
  { fileExists := fun _ => true
    attemptOutcome := fun _ _ => .success
    quitOk := fun _ => true
    stopSet := fun j => decide (1 ≤ j) }

/-- Witness for C4 with three resources and the stop set before the 2nd. -/
theorem c4_stop_skips_remaining_witness :
    (run envStopAt1 (.init ["a.xlsx", "b.xlsx", "c.xlsx"] 5 2 5) =
      .coInit :: .createApp 0 ::
        (runLoop (noStop envStopAt1) 5 2 ["a.xlsx"] 0 ⟨0, 1, 0⟩).1 ++
        [.stopObserved,
         .quitApp (runLoop (noStop envStopAt1) 5 2 ["a.xlsx"] 0 ⟨0, 1, 0⟩).2.app
           (envStopAt1.quitOk
             (runLoop (noStop envStopAt1) 5 2 ["a.xlsx"] 0 ⟨0, 1, 0⟩).2.app),
         .coUninit]) ∧
    (∀ a p wb,
      Event.openWorkbook a p wb ∈ run envStopAt1 (.init ["a.xlsx", "b.xlsx", "c.xlsx"] 5 2 5) →
      p ∈ ["a.xlsx"]) ∧
    (∀ calls : List StopFlagCall, stopFlagAfter true calls = true) :=
  c4_stop_skips_remaining envStopAt1 (.init ["a.xlsx", "b.xlsx", "c.xlsx"] 5 2 5) 1
    (fun j k hjk hj => by
      simp [envStopAt1] at hj ⊢
      omega)
    (fun j hj => by
      have : j = 0 := by omega
      subst this
      rfl)
    rfl (by decide)

/-! ## C5: at most one application handle is live at any point

`createApp` brings an application handle to life; `quitApp` tears it down
(best-effort — even a failed `Quit` releases the worker's handle, since
the variable is immediately rebound).  `liveAfter c tr` is the number of
live handles after `tr`, starting from `c`; `boundedLive c tr` checks
that this count stays within `[0, 1]` after every single event. -/

def appsDelta : Event → Int
  | .createApp _ => 1
  | .quitApp _ _ => -1
  | _ => 0

def liveAfter (c : Int) : List Event → Int
  | [] => c
  | e :: rest => liveAfter (c + appsDelta e) rest

def boundedLive (c : Int) : List Event → Bool
  | [] => true
  | e :: rest =>
      (decide (0 ≤ c + appsDelta e) && decide (c + appsDelta e ≤ 1)) &&
        boundedLive (c + appsDelta e) rest

theorem liveAfter_append (c : Int) (xs ys : List Event) :
    liveAfter c (xs ++ ys) = liveAfter (liveAfter c xs) ys := by
  induction xs generalizing c with
  | nil => rfl
  | cons e xs ih => simp [liveAfter, ih]

theorem boundedLive_append (c : Int) (xs ys : List Event) :
    boundedLive c (xs ++ ys) =
      (boundedLive c xs && boundedLive (liveAfter c xs) ys) := by
  induction xs generalizing c with
  | nil => simp [boundedLive, liveAfter]
  | cons e xs ih =>
      simp [boundedLive, liveAfter, ih, Bool.and_assoc]

theorem attemptEvents_live (a wb : Nat) (p : String) (o : AttemptOutcome) :
    boundedLive 1 (attemptEvents a wb p o) = true ∧
    liveAfter 1 (attemptEvents a wb p o) = 1 := by
  rcases o with _ | fp
  · exact ⟨rfl, rfl⟩
  · cases fp <;> exact ⟨rfl, rfl⟩

theorem syncLoop_live (env : DriverEnv) (mr : Nat) (rd : Rat) (path : String) :
    ∀ (fuel retries : Nat) (st : WState), mr - retries ≤ fuel →
    boundedLive 1 (syncLoop env mr rd path st retries).1 = true ∧
    liveAfter 1 (syncLoop env mr rd path st retries).1 = 1 := by
  intro fuel
  induction fuel with
  | zero =>
      intro retries st hf
      rw [syncLoop_done env mr rd path st retries (by omega)]
      exact ⟨rfl, rfl⟩
  | succ k ih =>
      intro retries st hf
      by_cases hlt : retries < mr
      · cases ho : env.attemptOutcome path retries with
        | success =>
            rw [syncLoop_success env mr rd path st retries hlt ho]
            exact attemptEvents_live st.app st.nextWb path .success
        | failAt fp =>
            rw [syncLoop_fail_step env mr rd path st retries fp hlt ho]
            simp only
            obtain ⟨hb, hl⟩ := attemptEvents_live st.app st.nextWb path (.failAt fp)
            by_cases hex : retries + 1 ≥ mr
            · rw [if_pos hex]
              constructor
              · rw [boundedLive_append, hb, hl]
                rfl
              · rw [liveAfter_append, hl]
                rfl
            · rw [if_neg hex]
              obtain ⟨ihb, ihl⟩ := ih (retries + 1) _ (by omega)
              constructor
              · rw [boundedLive_append, hb, hl]
                simp only [Bool.true_and, boundedLive]
                simpa [appsDelta] using ihb
              · rw [liveAfter_append, hl]
                simpa [liveAfter, appsDelta] using ihl
      · rw [syncLoop_done env mr rd path st retries hlt]
        exact ⟨rfl, rfl⟩

theorem processResource_live (env : DriverEnv) (mr : Nat) (rd : Rat)
    (path : String) (st : WState) :
    boundedLive 1 (processResource env mr rd path st).1 = true ∧
    liveAfter 1 (processResource env mr rd path st).1 = 1 := by
  cases hex : env.fileExists path with
  | false =>
      rw [processResource_missing env mr rd path st hex]
      exact ⟨rfl, rfl⟩
  | true =>
      rw [processResource_exists env mr rd path st hex]
      obtain ⟨hb, hl⟩ := syncLoop_live env mr rd path mr 0 st (by omega)
      constructor
      · simpa [boundedLive, appsDelta] using hb
      · simpa [liveAfter, appsDelta] using hl

theorem runLoop_live (env : WorkerEnv) (mr : Nat) (rd : Rat) :
    ∀ (paths : List String) (idx : Nat) (st : WState),
    boundedLive 1 (runLoop env mr rd paths idx st).1 = true ∧
    liveAfter 1 (runLoop env mr rd paths idx st).1 = 1 := by
  intro paths
  induction paths with
  | nil => intro idx st; exact ⟨rfl, rfl⟩
  | cons p rest ih =>
      intro idx st
      cases hstop : env.stopSet idx with
      | true =>
          rw [runLoop_stop env mr rd p rest idx st hstop]
          exact ⟨rfl, rfl⟩
      | false =>
          rw [runLoop_go env mr rd p rest idx st hstop]
          obtain ⟨hb, hl⟩ := processResource_live env.toDriverEnv mr rd p st
          obtain ⟨ihb, ihl⟩ := ih (idx + 1)
            (processResource env.toDriverEnv mr rd p st).2.2
          constructor
          · rw [boundedLive_append, hb, hl, ihb]
            rfl
          · rw [liveAfter_append, hl, ihl]

/-- C5: throughout every worker run at most one Excel application handle
is live — after every single event the live count is 0 or 1, so a fresh
application is only ever dispatched once the previous handle has been
quit — and the final handle is torn down before the run ends, leaving the
live count at 0. -/
theorem c5_single_live_application (env : WorkerEnv)
    (proc : SynchronizedExcelProcessor) :
    boundedLive 0 (run env proc) = true ∧ liveAfter 0 (run env proc) = 0 := by
  obtain ⟨hb, hl⟩ := runLoop_live env proc.max_retries proc.retry_delay
    proc.file_paths 0 ⟨0, 1, 0⟩
  simp only [run]
  constructor
  · rw [show (Event.coInit :: Event.createApp 0 ::
        (runLoop env proc.max_retries proc.retry_delay proc.file_paths 0
          ⟨0, 1, 0⟩).1 ++ _ : List Event) =
      Event.coInit :: Event.createApp 0 ::
        ((runLoop env proc.max_retries proc.retry_delay proc.file_paths 0
          ⟨0, 1, 0⟩).1 ++ _) from rfl]
    simp only [boundedLive, appsDelta]
    rw [boundedLive_append]
    norm_num
    refine ⟨by simpa using hb, ?_⟩
    have hl2 : liveAfter 1 (runLoop env proc.max_retries proc.retry_delay
        proc.file_paths 0 ⟨0, 1, 0⟩).1 = 1 := hl
    simp only [show ((0 : Int) + 0 + 1) = 1 from rfl] at hl2 ⊢
    rw [hl2]
    rfl
  · rw [show (Event.coInit :: Event.createApp 0 ::
        (runLoop env proc.max_retries proc.retry_delay proc.file_paths 0
          ⟨0, 1, 0⟩).1 ++ _ : List Event) =
      Event.coInit :: Event.createApp 0 ::
        ((runLoop env proc.max_retries proc.retry_delay proc.file_paths 0
          ⟨0, 1, 0⟩).1 ++ _) from rfl]
    simp only [liveAfter, appsDelta]
    rw [liveAfter_append]
    rw [show ((0 : Int) + 0 + 1) = 1 from rfl]
    rw [hl]
    rfl

/-! ## C3: resource-handle leaks

`leakAfterOpen a wb tr` scans forward from an `openWorkbook a _ wb`
event: if another workbook is opened through the same application `a`
before `wb` is closed and before `a` is quit, then `wb` has been
abandoned while its owning application is still alive — a leak in the
sense of the specification.  `handleLeaked tr` checks all opens. -/

def Event.isQuitOf (a : Nat) : Event → Bool
  | .quitApp a2 _ => a2 == a
  | _ => false

def leakAfterOpen (a wb : Nat) : List Event → Bool
  | [] => false
  | e :: rest =>
    match e with
    | .closeWorkbook wb2 => if wb2 = wb then false else leakAfterOpen a wb rest
    | .quitApp a2 _ => if a2 = a then false else leakAfterOpen a wb rest
    | .openWorkbook a2 _ _ => if a2 = a then true else leakAfterOpen a wb rest
    | _ => leakAfterOpen a wb rest

def handleLeaked : List Event → Bool
  | [] => false
  | e :: rest =>
    (match e with
     | .openWorkbook a _ wb => leakAfterOpen a wb rest
     | _ => false) || handleLeaked rest

/-- Environment exhibiting the leak: the only resource fails during
`RefreshAll` on its first attempt (after `Workbooks.Open` succeeded) and
succeeds on the second. -/
def envLeak : WorkerEnv :=
  { fileExists := fun _ => true
    attemptOutcome := fun _ k => if k = 0 then .failAt .atRefresh else .success
    quitOk := fun _ => true
    stopSet := fun _ => false }

theorem syncLoopLeak_atOne :
    syncLoop envLeak.toDriverEnv 2 2 "a.xlsx" ⟨0, 1, 1⟩ 1 =
      (attemptEvents 0 1 "a.xlsx" .success, 1, ⟨0, 1, 2⟩) := by
  rw [syncLoop_success envLeak.toDriverEnv 2 2 "a.xlsx" ⟨0, 1, 1⟩ 1 (by omega) rfl]

theorem syncLoopLeak_atZero :
    syncLoop envLeak.toDriverEnv 2 2 "a.xlsx" ⟨0, 1, 0⟩ 0 =
      ([.openWorkbook 0 "a.xlsx" 0, .retryWait 2, .openWorkbook 0 "a.xlsx" 1,
        .refreshAll 1, .refreshWait REFRESH_INTERVAL, .saveWorkbook 1,
        .closeWorkbook 1], 2, ⟨0, 1, 2⟩) := by
  rw [syncLoop_fail_step envLeak.toDriverEnv 2 2 "a.xlsx" ⟨0, 1, 0⟩ 0
    .atRefresh (by omega) rfl]
  simp only [attemptOpens, if_true, ge_iff_le]
  rw [if_neg (by omega)]
  norm_num
  rw [syncLoopLeak_atOne]
  simp [attemptEvents]

/-- The full trace of the leaking run: workbook 0 is opened through
application 0, the refresh fails, and the retry opens workbook 1 through
the same still-live application while workbook 0 is never closed. -/
theorem runLeak_trace :
    run envLeak (.init ["a.xlsx"] 2 2 5) =
      [.coInit, .createApp 0, .checkExists "a.xlsx" true,
       .openWorkbook 0 "a.xlsx" 0, .retryWait 2, .openWorkbook 0 "a.xlsx" 1,
       .refreshAll 1, .refreshWait REFRESH_INTERVAL, .saveWorkbook 1,
       .closeWorkbook 1, .quitApp 0 true, .coUninit] := by
  simp only [run, SynchronizedExcelProcessor.init]
  rw [runLoop_go envLeak 2 2 "a.xlsx" [] 0 ⟨0, 1, 0⟩ rfl,
    processResource_exists envLeak.toDriverEnv 2 2 "a.xlsx" ⟨0, 1, 0⟩ rfl,
    syncLoopLeak_atZero, runLoop_nil]
  rfl

/-- C3 counterexample: the claim "no resource handle remains open while
its owning application handle is still alive" is false on the code.  In
the concrete run of `envLeak` (one resource, `max_retries = 2`, first
attempt failing after a successful open), workbook 0 stays open while a
second workbook is opened through the same live application. -/
theorem c3_no_leak_counterexample :
    handleLeaked (run envLeak (.init ["a.xlsx"] 2 2 5)) = true := by
  rw [runLeak_trace]
  rfl

/-! ## C3 (amended): every open handle is closed, or its owner is
eventually torn down -/

/-- The workbook `wb` opened through application `a` is dealt with later
in the trace: either its `Close` happens, or its owning application is
quit (invalidating it). -/
def handledAfter (a wb : Nat) (tr : List Event) : Bool :=
  tr.any fun e => e == Event.closeWorkbook wb || Event.isQuitOf a e

/-- Every `openWorkbook` in the trace is followed, within the trace, by a
close of that workbook or a quit of its owning application. -/
def allOpensHandled : List Event → Bool
  | [] => true
  | .openWorkbook a _ wb :: rest => handledAfter a wb rest && allOpensHandled rest
  | _ :: rest => allOpensHandled rest

theorem handledAfter_append (a wb : Nat) (xs ys : List Event) :
    handledAfter a wb (xs ++ ys) =
      (handledAfter a wb xs || handledAfter a wb ys) := by
  simp [handledAfter, List.any_append]

theorem handledAfter_of_quit (a wb : Nat) (tail : List Event)
    (h : tail.any (Event.isQuitOf a) = true) : handledAfter a wb tail = true := by
  rcases List.any_eq_true.mp h with ⟨e, he, hq⟩
  exact List.any_eq_true.mpr ⟨e, he, by simp [hq]⟩

/-- Attempt-level step: prepending the events of one attempt preserves
`allOpensHandled`, provided the current application is eventually quit in
the remainder (or the attempt succeeded, closing its own workbook). -/
theorem attemptEvents_handled (a wb : Nat) (p : String) (o : AttemptOutcome)
    (tail : List Event) (htail : allOpensHandled tail = true)
    (hq : handledAfter a wb tail = true) :
    allOpensHandled (attemptEvents a wb p o ++ tail) = true := by
  rcases o with _ | fp
  · simp [attemptEvents, allOpensHandled, handledAfter_append, htail,
      handledAfter, Event.isQuitOf]
  · cases fp
    case atOpen => simpa [attemptEvents, allOpensHandled] using htail
    all_goals
      simp only [handledAfter] at hq
      rcases List.any_eq_true.mp hq with ⟨e, he, hor⟩
      rw [Bool.or_eq_true, beq_iff_eq] at hor
      simp [attemptEvents, allOpensHandled, handledAfter_append, htail,
        handledAfter, Event.isQuitOf]
      exact ⟨e, he, hor⟩

/-- Loop-level invariant for the amended C3: the retry loop either keeps
the same current application or quits it inside its own events, and its
events preserve `allOpensHandled` for any continuation that eventually
quits the resulting application. -/
theorem syncLoop_opens_handled (env : DriverEnv) (mr : Nat) (rd : Rat)
    (path : String) :
    ∀ (fuel retries : Nat) (st : WState), mr - retries ≤ fuel →
    ((syncLoop env mr rd path st retries).2.2.app = st.app ∨
      (syncLoop env mr rd path st retries).1.any (Event.isQuitOf st.app) = true) ∧
    (∀ tail : List Event,
      tail.any (Event.isQuitOf (syncLoop env mr rd path st retries).2.2.app) = true →
      allOpensHandled tail = true →
      allOpensHandled ((syncLoop env mr rd path st retries).1 ++ tail) = true) := by
  intro fuel
  induction fuel with
  | zero =>
      intro retries st hf
      rw [syncLoop_done env mr rd path st retries (by omega)]
      exact ⟨Or.inl rfl, fun tail _ htail => htail⟩
  | succ k ih =>
      intro retries st hf
      by_cases hlt : retries < mr
      · cases ho : env.attemptOutcome path retries with
        | success =>
            rw [syncLoop_success env mr rd path st retries hlt ho]
            refine ⟨Or.inl rfl, fun tail hq htail => ?_⟩
            exact attemptEvents_handled st.app st.nextWb path .success tail htail
              (handledAfter_of_quit _ _ tail hq)
        | failAt fp =>
            by_cases hex : retries + 1 ≥ mr
            · rw [syncLoop_fail_exhaust env mr rd path st retries fp hlt ho hex]
              refine ⟨Or.inr ?_, fun tail hq htail => ?_⟩
              · refine List.any_eq_true.mpr
                  ⟨.quitApp st.app (env.quitOk st.app), ?_, ?_⟩
                · simp
                · simp [Event.isQuitOf]
              · rw [List.append_assoc]
                refine attemptEvents_handled st.app st.nextWb path (.failAt fp)
                  _ ?_ ?_
                · simpa [allOpensHandled] using htail
                · refine handledAfter_of_quit _ _ _ ?_
                  refine List.any_eq_true.mpr
                    ⟨.quitApp st.app (env.quitOk st.app), ?_, ?_⟩
                  · simp
                  · simp [Event.isQuitOf]
            · rw [syncLoop_fail_retry env mr rd path st retries fp hlt ho hex]
              obtain ⟨iha, ihb⟩ := ih (retries + 1)
                ⟨st.app, st.nextApp,
                 if attemptOpens (.failAt fp) then st.nextWb + 1 else st.nextWb⟩
                (by omega)
              refine ⟨?_, fun tail hq htail => ?_⟩
              · rcases iha with iha | iha
                · exact Or.inl iha
                · right
                  rcases List.any_eq_true.mp iha with ⟨e, he, hqe⟩
                  exact List.any_eq_true.mpr
                    ⟨e, List.mem_append_right _ (List.mem_cons_of_mem _ he), hqe⟩
              · have h2 := ihb tail hq htail
                rw [List.append_assoc]
                refine attemptEvents_handled st.app st.nextWb path (.failAt fp)
                  _ ?_ ?_
                · simpa [allOpensHandled] using h2
                · refine handledAfter_of_quit _ _ _ ?_
                  rcases iha with iha | iha
                  · rw [iha] at hq
                    rcases List.any_eq_true.mp hq with ⟨e, he, hqe⟩
                    refine List.any_eq_true.mpr ⟨e, ?_, hqe⟩
                    exact List.mem_cons_of_mem _ (List.mem_append_right _ he)
                  · rcases List.any_eq_true.mp iha with ⟨e, he, hqe⟩
                    refine List.any_eq_true.mpr ⟨e, ?_, hqe⟩
                    exact List.mem_cons_of_mem _ (List.mem_append_left _ he)
      · rw [syncLoop_done env mr rd path st retries hlt]
        exact ⟨Or.inl rfl, fun tail _ htail => htail⟩

theorem processResource_opens_handled (env : DriverEnv) (mr : Nat) (rd : Rat)
    (path : String) (st : WState) :
    ((processResource env mr rd path st).2.2.app = st.app ∨
      (processResource env mr rd path st).1.any (Event.isQuitOf st.app) = true) ∧
    (∀ tail : List Event,
      tail.any (Event.isQuitOf (processResource env mr rd path st).2.2.app) = true →
      allOpensHandled tail = true →
      allOpensHandled ((processResource env mr rd path st).1 ++ tail) = true) := by
  cases hex : env.fileExists path with
  | false =>
      rw [processResource_missing env mr rd path st hex]
      exact ⟨Or.inl rfl, fun tail _ htail => by
        simpa [allOpensHandled] using htail⟩
  | true =>
      rw [processResource_exists env mr rd path st hex]
      obtain ⟨sa, sb⟩ := syncLoop_opens_handled env mr rd path mr 0 st (by omega)
      refine ⟨?_, fun tail hq htail => ?_⟩
      · rcases sa with sa | sa
        · exact Or.inl sa
        · right
          rcases List.any_eq_true.mp sa with ⟨e, he, hqe⟩
          exact List.any_eq_true.mpr ⟨e, List.mem_cons_of_mem _ he, hqe⟩
      · have h2 := sb tail hq htail
        simpa [allOpensHandled] using h2

theorem runLoop_opens_handled (env : WorkerEnv) (mr : Nat) (rd : Rat) :
    ∀ (paths : List String) (idx : Nat) (st : WState),
    ((runLoop env mr rd paths idx st).2.app = st.app ∨
      (runLoop env mr rd paths idx st).1.any (Event.isQuitOf st.app) = true) ∧
    (∀ tail : List Event,
      tail.any (Event.isQuitOf (runLoop env mr rd paths idx st).2.app) = true →
      allOpensHandled tail = true →
      allOpensHandled ((runLoop env mr rd paths idx st).1 ++ tail) = true) := by
  intro paths
  induction paths with
  | nil =>
      intro idx st
      rw [runLoop_nil]
      exact ⟨Or.inl rfl, fun tail _ htail => htail⟩
  | cons p rest ih =>
      intro idx st
      cases hstop : env.stopSet idx with
      | true =>
          rw [runLoop_stop env mr rd p rest idx st hstop]
          exact ⟨Or.inl rfl, fun tail _ htail => by
            simpa [allOpensHandled] using htail⟩
      | false =>
          rw [runLoop_go env mr rd p rest idx st hstop]
          obtain ⟨pa, pb⟩ := processResource_opens_handled env.toDriverEnv mr rd p st
          obtain ⟨ra, rb⟩ := ih (idx + 1) (processResource env.toDriverEnv mr rd p st).2.2
          refine ⟨?_, fun tail hq htail => ?_⟩
          · rcases pa with pa | pa
            · rcases ra with ra | ra
              · exact Or.inl (by rw [ra, pa])
              · right
                rcases List.any_eq_true.mp ra with ⟨e, he, hqe⟩
                rw [pa] at hqe
                exact List.any_eq_true.mpr ⟨e, List.mem_append_right _ he, hqe⟩
            · right
              rcases List.any_eq_true.mp pa with ⟨e, he, hqe⟩
              exact List.any_eq_true.mpr ⟨e, List.mem_append_left _ he, hqe⟩
          · have h2 := rb tail hq htail
            rw [List.append_assoc]
            refine pb _ ?_ h2
            rcases ra with ra | ra
            · rw [ra] at hq
              rcases List.any_eq_true.mp hq with ⟨e, he, hqe⟩
              exact List.any_eq_true.mpr ⟨e, List.mem_append_right _ he, hqe⟩
            · rcases List.any_eq_true.mp ra with ⟨e, he, hqe⟩
              exact List.any_eq_true.mpr ⟨e, List.mem_append_left _ he, hqe⟩

/-- C3 (amended): every `openWorkbook` of a worker run is followed in the
trace by a `closeWorkbook` of that workbook or by a `quitApp` of its
owning application — a handle is closed on a successful attempt and
otherwise invalidated by the owning application's eventual teardown (at
that resource's exhaustion or at run end).  The original claim's stronger
guarantee — that no handle stays open while its owner is alive — is
refuted by `c3_no_leak_counterexample`: a handle opened in a failed
attempt stays open, alongside the next attempt's handle, until that
teardown. -/
theorem c3_opens_closed_or_owner_torn_down (env : WorkerEnv)
    (proc : SynchronizedExcelProcessor) :
    allOpensHandled (run env proc) = true := by
  obtain ⟨ra, rb⟩ := runLoop_opens_handled env proc.max_retries proc.retry_delay
    proc.file_paths 0 ⟨0, 1, 0⟩
  simp only [run]
  have h := rb
    [.quitApp (runLoop env proc.max_retries proc.retry_delay
        proc.file_paths 0 ⟨0, 1, 0⟩).2.app
      (env.quitOk (runLoop env proc.max_retries proc.retry_delay
        proc.file_paths 0 ⟨0, 1, 0⟩).2.app), .coUninit]
    (by simp [Event.isQuitOf]) rfl
  simpa [allOpensHandled] using h

end Dashboard
